import Mathlib

/-
Verification development for drivers/lightnvm/pblk-core.c (host-side FTL for
Open-Channel SSDs).  The definitions below are a shallow embedding of the C
functions named in their doc comments; machine integers are modelled as Nat
(all the quantities involved are non-negative counters, positions and sizes
that stay far below any machine-word bound in the configurations pblk
supports).  Code of the repository that is referenced by pblk-core.c but whose
file is not part of src/ (the write ring buffer pblk-rb.c, the mapper helpers,
pblk_page_invalidate, pblk_run_recovery, pblk_recov_setup_rq) is modelled from
the specification; each such definition says so in its doc comment.
-/

namespace Pblk

/-- Backpressure threshold on the shared write_inflight counter, the literal
400000 in __pblk_may_submit_write (pblk-core.c:73). -/
def inflightCap : Nat := 400000

/-- Embedding of atomic_inc_below (pblk-core.c:53-69).  The sequential meaning
of the CAS loop: read the current value; if it is at or above the bound the
increment is refused and the value is unchanged, otherwise the value is
advanced by inc.  Note the C code compares the value read against the bound
before adding inc, so a successful increment may land above the bound. -/
def atomic_inc_below (v below inc : Nat) : Bool × Nat :=
  if v ≥ below then (false, v) else (true, v + inc)

/-- Embedding of one attempt of pblk_may_submit_write (pblk-core.c:76-94):
the writer proceeds (some newValue) exactly when atomic_inc_below on the
write_inflight counter succeeds against inflightCap; otherwise it goes to
sleep on the waitqueue and the counter is unchanged (none). -/
def pblk_may_submit_write_step (v nrSecs : Nat) : Option Nat :=
  match atomic_inc_below v inflightCap nrSecs with
  | (true, v2) => some v2
  | (false, _) => none

/-- Fuel-indexed embedding of the flush climb loop inside
pblk_calc_secs_to_sync (pblk-core.c:1751-1758):
while (1) { inc = secs_to_sync + min; if (inc <= secs_avail && inc <= max)
secs_to_sync += min; else break; }.  When min is positive each iteration
grows s by min and the guard bounds s by secs_avail, so fuel secsAvail + 1 is
enough for the loop to reach its exit condition; the C loop does not
terminate at all when min = 0 (pblk always has min_write_pgs ≥ 1). -/
def secsToSyncLoopF : Nat → Nat → Nat → Nat → Nat → Nat
  | 0, _, _, _, s => s
  | fuel + 1, secsAvail, mx, mn, s =>
    if s + mn ≤ secsAvail ∧ s + mn ≤ mx then
      secsToSyncLoopF fuel secsAvail mx mn (s + mn)
    else s

/-- Embedding of pblk_calc_secs_to_sync (pblk-core.c:1739-1771) with the
geometry parameters max_write_pgs and min_write_pgs passed explicitly. -/
def pblk_calc_secs_to_sync (mx mn secsAvail secsToFlush : Nat) : Nat :=
  if secsAvail ≥ mx ∨ secsToFlush ≥ mx then mx
  else if secsAvail ≥ mn then
    if secsToFlush ≠ 0 then
      secsToSyncLoopF (secsAvail + 1) secsAvail mx mn (mn * (secsToFlush / mn))
    else mn * (secsAvail / mn)
  else if secsToFlush ≠ 0 then mn else 0

/-- Completion context of a write request: the fields c_ctx->sentry (starting
ring offset of the request) and c_ctx->nr_valid used by the in-order
retirement machinery (pblk_compl_ctx in pblk.h). -/
structure ComplCtx where
  sentry : Nat
  nrValid : Nat
deriving DecidableEq, Repr

/-- State owned by the ring retirement machinery: the sync position of the
write ring and the compl_list of out-of-order completed contexts. -/
structure RbSyncState where
  sync : Nat
  complList : List ComplCtx
deriving DecidableEq, Repr

/-- Modelled from the spec: pblk_rb_sync_advance (the ring buffer file is not
part of src/) — "sync_advance(n): retirement — advances sync by n in-order
and returns the new value". -/
def pblk_rb_sync_advance (sync n : Nat) : Nat := sync + n

/-- Effect of pblk_end_w_bio (pblk-core.c:1444-1481) on the sync position:
after setting the sync_bitmap bits and ending any attached flush bio for the
nr_valid entries of the context, it advances sync by nr_valid and returns the
new position. -/
def pblk_end_w_bio (sync : Nat) (c : ComplCtx) : Nat :=
  pblk_rb_sync_advance sync c.nrValid

/-- Scan of the compl_list performed by the retry loop of pblk_compl_queue
(pblk-core.c:1511-1518): find the first queued context whose sentry equals
pos, returning it together with the list with that context removed. -/
def complFind (pos : Nat) : List ComplCtx → Option (ComplCtx × List ComplCtx)
  | [] => none
  | c :: rest =>
    if c.sentry = pos then some (c, rest)
    else
      match complFind pos rest with
      | none => none
      | some (d, l) => some (d, c :: l)

/-- Fuel-indexed drain loop of pblk_compl_queue: retire the found context
(pblk_end_queued_w_bio advances pos by its nr_valid and removes it) and
rescan from the head, until no queued context matches the position.  Every
retirement removes one element, so fuel = length of the list suffices. -/
def complDrain : Nat → Nat → List ComplCtx → Nat × List ComplCtx
  | 0, pos, l => (pos, l)
  | fuel + 1, pos, l =>
    match complFind pos l with
    | none => (pos, l)
    | some (c, rest) => complDrain fuel (pblk_end_w_bio pos c) rest

/-- Embedding of pblk_compl_queue (pblk-core.c:1491-1524) restricted to its
effect on the sync position and the compl_list (it also releases nr_valid
from write_inflight and wakes the waitqueue, which claims C2/C3 do not need):
under the ring sync lock, if the incoming context's sentry equals the current
sync position, retire it at once and drain every queued context whose sentry
matches the advancing position; otherwise append it to compl_list. -/
def pblk_compl_queue (st : RbSyncState) (c : ComplCtx) : RbSyncState :=
  if c.sentry = st.sync then
    let pos := pblk_end_w_bio st.sync c
    let r := complDrain st.complList.length pos st.complList
    ⟨r.1, r.2⟩
  else
    ⟨st.sync, st.complList ++ [c]⟩

/-- One pad request produced by pblk_pad_blk (pblk-core.c:2127-2130): the
completion context carries c_ctx->nr_valid = 0 and c_ctx->nr_padded = batch
size; the request is submitted synchronously (PBLK_IOTYPE_SYNC) with
zero-filled payload. -/
structure PadReq where
  nrValid : Nat
  nrPadded : Nat
deriving DecidableEq, Repr

/-- Fuel-indexed embedding of the do-while loop of pblk_pad_blk
(pblk-core.c:2102-2146): each round submits a batch of
min(nr_free_secs, max_write_pgs) sectors and subtracts it from
nr_free_secs, repeating while nr_free_secs > 0.  Being a do-while, the body
runs at least once, so nr_free_secs = 0 still emits one zero-sector request.
Fuel nrFree + 1 is enough when max_write_pgs ≥ 1. -/
def padBlkLoop : Nat → Nat → Nat → List PadReq
  | 0, _, _ => []
  | fuel + 1, nrFree, maxW =>
    let nrSecs := if nrFree > maxW then maxW else nrFree
    ⟨0, nrSecs⟩ ::
      (if nrFree - nrSecs > 0 then padBlkLoop fuel (nrFree - nrSecs) maxW else [])

/-- Batches submitted by pblk_pad_blk (pblk-core.c:2085-2157) for a block
with nrFree free sectors. -/
def pblk_pad_blk (nrFree maxW : Nat) : List PadReq :=
  padBlkLoop (nrFree + 1) nrFree maxW

/-- Per-block outcome of the teardown loop in pblk_pad_open_blks. -/
inductive PadDisposition where
  | corrupted
  | skipEmpty
  | padded (reqs : List PadReq)
deriving DecidableEq, Repr

/-- Embedding of the per-block body of pblk_pad_open_blks
(pblk-core.c:2193-2211): nrFree = nr_blk_dsecs − popcount(sector_bitmap)
(pblk_nr_free_secs); if nrFree is not a multiple of min_write_pgs report a
corrupted block and skip; else if the block is fully free (nothing ever
written, nrFree = nr_blk_dsecs) release it and skip; otherwise run
pblk_pad_blk.  Note the corruption check comes first in the C code, and the
skipped case is the fully-free block, not the zero-free one. -/
def pblk_pad_open_blk (nrBlkDsecs minW maxW used : Nat) : PadDisposition :=
  let nrFree := nrBlkDsecs - used
  if nrFree % minW ≠ 0 then .corrupted
  else if nrFree = nrBlkDsecs then .skipEmpty
  else .padded (pblk_pad_blk nrFree maxW)

/-- Per-block teardown behaviour as claim C8 words it (for refinement
comparison with pblk_pad_open_blk, which embeds the source): "if its
free-sector count is zero it is skipped with no pad I/O submitted; if the
free count is not a multiple of min_write_pgs, corruption is reported and it
is skipped; otherwise pad writes are submitted in batches". -/
def padOpenBlkClaim (nrBlkDsecs minW maxW used : Nat) : PadDisposition :=
  let nrFree := nrBlkDsecs - used
  if nrFree = 0 then .skipEmpty
  else if nrFree % minW ≠ 0 then .corrupted
  else .padded (pblk_pad_blk nrFree maxW)

/-- Return codes NVM_IO_OK / NVM_IO_DONE / NVM_IO_REQUEUE / NVM_IO_ERR used
by the pblk entry points. -/
inductive NvmIoRes where
  | ok
  | done
  | requeue
  | err
deriving DecidableEq, Repr

/-- Observable state mutations of the write admission path: a ring slot
write (pblk_rb_write_entry at position pos for lba) and an L2P publication
(pblk_update_map of lba to the cacheline at pos). -/
inductive WEffect where
  | rbWriteEntry (pos lba : Nat)
  | mapUpdate (lba pos : Nat)
deriving DecidableEq, Repr

/-- Embedding of pblk_write_to_cache (pblk-core.c:785-831).  The outcome of
pblk_rb_may_write (ring file not in src/) is abstracted as the oracle
mayWrite, with pos the reserved starting position.  When the reservation
fails the function returns NVM_IO_REQUEUE having performed no ring write and
no map update; otherwise it copies each sector into the ring and publishes
its cacheline in the L2P map, returning NVM_IO_OK for a preflush bio
(retained as sync-point owner) and NVM_IO_DONE otherwise. -/
def pblk_write_to_cache (mayWrite : Bool) (pos laddr nrEntries : Nat)
    (preflush : Bool) : NvmIoRes × List WEffect :=
  if !mayWrite then (.requeue, [])
  else
    ((if preflush then .ok else .done),
      (List.range nrEntries).flatMap fun i =>
        [.rbWriteEntry (pos + i) (laddr + i), .mapUpdate (laddr + i) (pos + i)])

/-- Environment observed by one round of the retry loop in pblk_buffer_write
(pblk-core.c:927-933): the emergency-GC mode flag read at the retry label,
and the outcome of the ring reservation attempted by pblk_write_to_cache in
that round. -/
structure WriteAttempt where
  emergencyGc : Bool
  mayWrite : Bool
  pos : Nat
deriving DecidableEq, Repr

/-- Embedding of the data path of pblk_buffer_write (pblk-core.c:910-948)
after the pure-preflush shortcut: the retry loop re-checks
pblk_emergency_gc_mode (returning NVM_IO_REQUEUE to the caller when set) and
otherwise calls pblk_write_to_cache, looping back to retry internally
whenever that returns NVM_IO_REQUEUE.  The schedule lists what each round
observes; none means the rounds supplied were exhausted with the function
still spinning. -/
def pblk_buffer_write_data : List WriteAttempt → Nat → Nat → Bool →
    Option (NvmIoRes × List WEffect)
  | [], _, _, _ => none
  | a :: rest, laddr, nrSecs, preflush =>
    if a.emergencyGc then some (.requeue, [])
    else if (pblk_write_to_cache a.mayWrite a.pos laddr nrSecs preflush).1 =
        .requeue then
      pblk_buffer_write_data rest laddr nrSecs preflush
    else some (pblk_write_to_cache a.mayWrite a.pos laddr nrSecs preflush)

/-- Tagged physical address (struct ppa_addr): the sentinel ADDR_EMPTY, a
cacheline reference into the write ring, or a device address.  The read-pin
bit that nvm_addr_get/set_read_cache manipulate lives in the same word; it is
broken out as the readCache field of PblkAddr below. -/
inductive PAddr where
  | empty
  | cache (pos : Nat)
  | dev (ppa : Nat)
deriving DecidableEq, Repr

/-- Predicate nvm_addr_in_cache: the address is a cacheline reference. -/
def nvm_addr_in_cache : PAddr → Bool
  | .cache _ => true
  | _ => false

/-- Predicate ppa_empty: the address is the ADDR_EMPTY sentinel. -/
def ppa_empty : PAddr → Bool
  | .empty => true
  | _ => false

/-- L2P entry struct pblk_addr { ppa; rblk } with the read-pin bit of the ppa
word exposed as readCache, and rblk the weak back-reference to the owning
block (by id), none for cachelines and empty entries. -/
structure PblkAddr where
  ppa : PAddr
  readCache : Bool
  rblk : Option Nat
deriving DecidableEq, Repr

/-- Embedding of pblk_lock_read (pblk-core.c:221-230): when the entry is in
cache, remember the prior pin bit into cache_read_state[off] (the middle
component) and set the pin, returning 1; otherwise do nothing and return 0. -/
def pblk_lock_read (gp : PblkAddr) : PblkAddr × Option Bool × Bool :=
  if nvm_addr_in_cache gp.ppa then
    ({ gp with readCache := true }, some gp.readCache, true)
  else (gp, none, false)

/-- Embedding of pblk_unlock_read (pblk-core.c:277-281): when the entry is in
cache, clear the pin bit.  The prior value saved by pblk_lock_read into
cache_read_state is not consulted — the C function receives the offset but
never reads the saved array. -/
def pblk_unlock_read (gp : PblkAddr) : PblkAddr :=
  if nvm_addr_in_cache gp.ppa then { gp with readCache := false } else gp

/-- Per-block invalidation accounting: nr_invalid_secs and the
invalid_bitmap of the block's RLPG. -/
structure BlockState where
  nrInvalidSecs : Nat
  invalidBitmap : Nat → Bool

/-- L2P map together with the per-block invalidation state reached through
the rblk back-references. -/
@[ext]
structure L2PState where
  transMap : Nat → PblkAddr
  blocks : Nat → BlockState

/-- Modelled from the spec: pblk_page_invalidate is not part of src/ —
"invalidate_range(slba, n): for each LBA in range, if mapped to a device
PPA, mark that block's sector invalid" and the update operation "invalidates
the previously owning block (increment nr_invalid_secs, set invalid_bitmap)".
The owning block is gp->rblk (argument b) and the sector key is the entry's
device address. -/
def pblk_page_invalidate (st : L2PState) (b : Nat) (gp : PblkAddr) : L2PState :=
  match gp.ppa with
  | .dev p =>
    { st with
      blocks := fun b2 =>
        if b2 = b then
          { nrInvalidSecs := (st.blocks b).nrInvalidSecs + 1
            invalidBitmap := fun s =>
              if s = p then true else (st.blocks b).invalidBitmap s }
        else st.blocks b2 }
  | _ => st

/-- Body of the loop of pblk_invalidate_range (pblk-core.c:985-992) for one
lba: if gp->rblk is set, invalidate the page in its block; then
ppa_set_empty(&gp->ppa) — which clears the whole ppa word, read-pin bit
included — and gp->rblk = NULL. -/
def invalidateOne (st : L2PState) (l : Nat) : L2PState :=
  let gp := st.transMap l
  let st1 :=
    match gp.rblk with
    | some b => pblk_page_invalidate st b gp
    | none => st
  { st1 with
    transMap := fun l2 =>
      if l2 = l then ⟨PAddr.empty, false, none⟩ else st1.transMap l2 }

/-- Embedding of pblk_invalidate_range (pblk-core.c:979-994): under
trans_lock, run invalidateOne on every lba in [slba, slba + n). -/
def pblk_invalidate_range (st : L2PState) (slba n : Nat) : L2PState :=
  (List.range n).foldl (fun s i => invalidateOne s (slba + i)) st

/-- Embedding of pblk_discard (pblk-core.c:996-1002): compute the lba range
from the bio and invalidate it; no device I/O is issued. -/
def pblk_discard (st : L2PState) (slba n : Nat) : L2PState :=
  pblk_invalidate_range st slba n

/-- Classification a read makes of one L2P entry, following pblk_read_rq
(pblk-core.c:162-219): empty entry → NVM_IO_DONE with the read_bitmap bit
set and no data; cacheline → serve from the write ring
(pblk_read_from_cache); device address → put the ppa on the request for
device submission. -/
inductive ReadSrc where
  | emptySec
  | fromCache (pos : Nat)
  | fromDev (ppa : Nat)
deriving DecidableEq, Repr

/-- Classification step of pblk_read_rq on the entry it loaded under
trans_lock. -/
def pblk_read_classify (gp : PblkAddr) : ReadSrc :=
  match gp.ppa with
  | .empty => .emptySec
  | .cache pos => .fromCache pos
  | .dev p => .fromDev p

/-- Entry of the write ring: the copied payload page (modelled as a value)
and the w_ctx lba recorded by pblk_rb_write_entry. -/
structure RbEntry where
  lba : Nat
  data : Nat
deriving DecidableEq, Repr

/-- System state for the write round-trip: the L2P map (pin bits and block
back-references are irrelevant to payload visibility and omitted), the write
ring with unbounded positions (mem is the admission head; slots are never
recycled in the model, matching the fact that the real ring reuses a slot
only after retirement has moved the L2P entry off the cacheline), and the
device's flash contents keyed by device address. -/
structure SysState where
  l2p : Nat → PAddr
  ring : Nat → Option RbEntry
  device : Nat → Option Nat
  mem : Nat

/-- Admission of one sector, the loop body of pblk_write_to_cache
(pblk-core.c:810-828): pblk_rb_write_entry copies payload and context into
the reserved slot, then pblk_update_map publishes the cacheline for the lba
(retrying internally while the entry is pinned; the retry always ends with
the publication, so its effect is the publication itself). -/
def admitSec (st : SysState) (lba data : Nat) : SysState :=
  { l2p := fun l => if l = lba then PAddr.cache st.mem else st.l2p l
    ring := fun p => if p = st.mem then some ⟨lba, data⟩ else st.ring p
    device := st.device
    mem := st.mem + 1 }

/-- Modelled from the spec: the media-writer drain and completion of the ring
entry at pos (pblk_submit_write batches the entry, pblk_map_page assigns the
device address, the device write completes and the entry is retired — the
ring file and the L2P device-update are not in src/).  The payload lands at
the fresh device address ppa and, per scenario S1 of the spec ("after writer
drains and completes, read returns the payload via the device path"), the
L2P entry is re-pointed from the cacheline to the device address — unless a
later write has already superseded the cacheline, in which case the map is
left alone ("a reader seeing ppa in cache is guaranteed the ring payload",
§5).  The drained slot is then retired. -/
def drainSec (st : SysState) (pos ppa : Nat) : SysState :=
  match st.ring pos with
  | none => st
  | some e =>
    { l2p := fun l =>
        if l = e.lba ∧ st.l2p e.lba = PAddr.cache pos then PAddr.dev ppa
        else st.l2p l
      ring := fun p => if p = pos then none else st.ring p
      device := fun q => if q = ppa then some e.data else st.device q
      mem := st.mem }

/-- Effect of pblk_invalidate_range on the round-trip state: the entries of
the range are cleared to ADDR_EMPTY (block accounting is tracked by L2PState
and irrelevant to payload visibility). -/
def discardSecs (st : SysState) (slba n : Nat) : SysState :=
  { st with
    l2p := fun l => if slba ≤ l ∧ l < slba + n then PAddr.empty else st.l2p l }

/-- Operations that may interleave after an admitted write: further
admissions, media-writer drains, and discards. -/
inductive Op where
  | admitOp (lba data : Nat)
  | drain (pos ppa : Nat)
  | discard (slba n : Nat)
deriving DecidableEq, Repr

/-- An operation supersedes the lba when it is a write admission to it or a
discard covering it; drains never supersede. -/
def Op.touches : Op → Nat → Bool
  | .admitOp l _, lba => decide (l = lba)
  | .drain _ _, _ => false
  | .discard s n, lba => decide (s ≤ lba) && decide (lba < s + n)

/-- Legal transitions of the round-trip state.  A drain requires the target
device address to be fresh (flash sectors are allocated append-only by
pblk_alloc_page and never rewritten before an erase). -/
inductive Step : SysState → Op → SysState → Prop where
  | admitOp : ∀ (st : SysState) (lba data : Nat),
      Step st (.admitOp lba data) (admitSec st lba data)
  | drain : ∀ (st : SysState) (pos ppa : Nat), st.device ppa = none →
      Step st (.drain pos ppa) (drainSec st pos ppa)
  | discard : ∀ (st : SysState) (slba n : Nat),
      Step st (.discard slba n) (discardSecs st slba n)

/-- Reflexive-transitive closure of Step along a list of operations. -/
inductive Steps : SysState → List Op → SysState → Prop where
  | nil : ∀ st, Steps st [] st
  | cons : ∀ {st st1 st2 op ops}, Step st op st1 → Steps st1 ops st2 →
      Steps st (op :: ops) st2

/-- End-to-end read of one lba: pblk_read_rq consults the L2P entry; an
empty entry yields no data, a cacheline is served from the write ring
(pblk_read_from_cache → pblk_rb_copy_to_bio), and a device address is
submitted to the device, which returns the stored payload. -/
def readSec (st : SysState) (lba : Nat) : Option Nat :=
  match st.l2p lba with
  | .empty => none
  | .cache pos => (st.ring pos).map RbEntry.data
  | .dev ppa => st.device ppa

/-- The payload P for lba is reachable: either the L2P entry is a live
cacheline whose ring slot holds P, or it is a device address whose flash
sector holds P.  This is the invariant behind the no-lost-writes property. -/
def goodFor (st : SysState) (lba data : Nat) : Prop :=
  (∃ pos, pos < st.mem ∧ st.l2p lba = PAddr.cache pos ∧
      st.ring pos = some ⟨lba, data⟩) ∨
  (∃ ppa, st.l2p lba = PAddr.dev ppa ∧ st.device ppa = some data)

/-- Empty initial round-trip state. -/
def st0 : SysState :=
  ⟨fun _ => PAddr.empty, fun _ => none, fun _ => none, 0⟩

/-- Device geometry address as the write-failure path sees it (generic mode):
the block it lives in and the sector within the block. -/
structure PpaG where
  blk : Nat
  sec : Nat
deriving DecidableEq, Repr

/-- ppa_cmp_blk: same-block test on two generic-mode addresses. -/
def ppa_cmp_blk (a b : PpaG) : Bool := a.blk = b.blk

/-- Ring entry located by pblk_rb_sync_scan_entry during write-failure
handling: the owning block w_ctx->ppa.rblk and the entry identity. -/
structure FailEntry where
  rblk : Nat
  idx : Nat
deriving DecidableEq, Repr

/-- Environment of one call to pblk_end_w_fail: the request flags and
counters, the ppa list and the ppa_status failure bitmap, the recovery-pool
allocation outcome, and the ring scan pblk_rb_sync_scan_entry (ring file not
in src/) as a lookup from generic addresses to entries. -/
structure WFailEnv where
  closeBlk : Bool
  closeRblk : Nat
  nrPpas : Nat
  nrValid : Nat
  recAlloc : Bool
  ppaList : List PpaG
  failBits : List Bool
  ringEntry : PpaG → Option FailEntry

/-- Observable outcome of pblk_end_w_fail: the recovery->failed list, the
blocks passed to pblk_run_recovery in call order, whether the failed sectors
were re-queued (pblk_recov_setup_rq + pblk_submit_rec work), whether the
request was retired through pblk_compl_queue, and whether the close-block
bio was ended. -/
structure WFailOut where
  failedList : List FailEntry
  recoveryRuns : List Nat
  requeued : Bool
  complQueued : Bool
  closeEnded : Bool
deriving DecidableEq, Repr

/-- Indices of the failing sectors: the set bits of rqd->ppa_status walked by
find_next_bit over nr_ppas positions, in ascending order. -/
def failIdx (env : WFailEnv) : List Nat :=
  (List.range env.nrPpas).filter fun i => env.failBits.getD i false

/-- The generic-mode ppa of the bit-th sector of the request,
rqd->ppa_list[bit]. -/
def ppaAt (env : WFailEnv) (bit : Nat) : PpaG :=
  env.ppaList.getD bit ⟨0, 0⟩

/-- Prefix of an index list up to (excluding) the first index above nv,
mirroring the goto-out stopping rule of the failure walk. -/
def stopAbove (nv : Nat) : List Nat → List Nat
  | [] => []
  | b :: rest => if b > nv then [] else b :: stopAbove nv rest

/-- Embedding of the failure walk of pblk_end_w_fail (pblk-core.c:1590-1615):
for each failing bit in order — stopping at the first bit above
c_ctx->nr_valid (goto out) — look the entry up by ppa
(pblk_rb_sync_scan_entry); a miss is skipped; a hit is appended to
recovery->failed, and pblk_run_recovery(w_ctx->ppa.rblk) runs unless the ppa
is in the same block as the previous failing ppa (prev_ppa, initially
ADDR_EMPTY which compares unequal to every block). -/
def wFailLoop (env : WFailEnv) :
    List Nat → Option PpaG → List FailEntry → List Nat →
    List FailEntry × List Nat
  | [], _, acc, runs => (acc, runs)
  | bit :: rest, prev, acc, runs =>
    if bit > env.nrValid then (acc, runs)
    else
      match env.ringEntry (ppaAt env bit) with
      | none => wFailLoop env rest prev acc runs
      | some e =>
        if (match prev with
            | some q => ppa_cmp_blk (ppaAt env bit) q
            | none => false) then
          wFailLoop env rest prev (acc ++ [e]) runs
        else
          wFailLoop env rest (some (ppaAt env bit)) (acc ++ [e])
            (runs ++ [e.rblk])

/-- Embedding of pblk_end_w_fail (pblk-core.c:1544-1626).  A failed
close-block write runs block recovery and ends the close bio without GC.  A
failed request with a single ppa returns at once with no recovery at all
(pblk-core.c:1575-1576, flagged TODO in the source).  Otherwise, after
allocating the recovery context (nothing happens if the pool is exhausted),
the failure walk fills recovery->failed and runs per-block recovery, the
failed sectors are re-queued via pblk_recov_setup_rq/pblk_submit_rec, and
the request is retired through pblk_compl_queue. -/
def pblk_end_w_fail (env : WFailEnv) : WFailOut :=
  if env.closeBlk then
    ⟨[], [env.closeRblk], false, false, true⟩
  else if env.nrPpas = 1 then
    ⟨[], [], false, false, false⟩
  else if !env.recAlloc then
    ⟨[], [], false, false, false⟩
  else
    let r := wFailLoop env (failIdx env) none [] []
    ⟨r.1, r.2, true, true, false⟩

/-- Failing sectors considered by the walk: the failing indices up to the
first one that exceeds c_ctx->nr_valid. -/
def failConsidered (env : WFailEnv) : List Nat :=
  stopAbove env.nrValid (failIdx env)

/-- The (ppa, ring entry) pairs the failure walk finds among a given index
list, in order: the ppa of each index is looked up in the ring and misses
are dropped. -/
def wFailPairs (env : WFailEnv) : List Nat → List (PpaG × FailEntry)
  | [] => []
  | bit :: rest =>
    match env.ringEntry (ppaAt env bit) with
    | none => wFailPairs env rest
    | some e => (ppaAt env bit, e) :: wFailPairs env rest

/-- The (ppa, ring entry) pairs the walk of pblk_end_w_fail finds, in order. -/
def failPairs (env : WFailEnv) : List (PpaG × FailEntry) :=
  wFailPairs env (failConsidered env)

/-- The pblk_run_recovery call sequence determined by the found failing
pairs: recovery runs for a pair whenever its block differs from the block of
the immediately preceding found failing pair (and always for the first). -/
def runsOf : Option PpaG → List (PpaG × FailEntry) → List Nat
  | _, [] => []
  | prev, (p, e) :: rest =>
    if (match prev with | some q => ppa_cmp_blk p q | none => false) then
      runsOf prev rest
    else e.rblk :: runsOf (some p) rest

/-- Dispatch of pblk_end_io_write (pblk-core.c:1628-1645): a FAILWRITE error
takes the failure path; sync requests return to their waiter; close-block
requests end the close bio with GC; everything else retires through
pblk_compl_queue. -/
inductive WComplAction where
  | failPath (o : WFailOut)
  | syncNoop
  | closeBlkEnd
  | complQueue
deriving DecidableEq, Repr

/-- Embedding of pblk_end_io_write (pblk-core.c:1628-1645). -/
def pblk_end_io_write (errFailWrite flagsSync flagsCloseBlk : Bool)
    (env : WFailEnv) : WComplAction :=
  if errFailWrite then .failPath (pblk_end_w_fail env)
  else if flagsSync then .syncNoop
  else if flagsCloseBlk then .closeBlkEnd
  else .complQueue

/-- Concrete write-failure environment with a single ppa whose write failed:
the close flag is clear, the one failing sector has a ring entry, and the
recovery pool would have served the allocation. -/
def wfailEnv1 : WFailEnv :=
  ⟨false, 0, 1, 1, true, [⟨3, 0⟩], [true],
    fun p => if p = ⟨3, 0⟩ then some ⟨7, 0⟩ else none⟩

/-- Concrete write-failure environment with two failing ppas in two distinct
blocks, both with ring entries. -/
def wfailEnv2 : WFailEnv :=
  ⟨false, 0, 2, 2, true, [⟨3, 0⟩, ⟨4, 0⟩], [true, true],
    fun p =>
      if p = ⟨3, 0⟩ then some ⟨7, 0⟩
      else if p = ⟨4, 0⟩ then some ⟨8, 1⟩
      else none⟩

/-- Observable actions of pblk_submit_read before and around the early
validation: request allocation from the read mempool, ppa-list DMA
allocation, L2P consultation for an lba, and bio completion or error. -/
inductive REffect where
  | allocRqd
  | allocPpaList
  | mapAccess (lba : Nat)
  | bioEndio
  | bioIoError
  | devSubmit
deriving DecidableEq, Repr

/-- Read bio abstraction for pblk_submit_read: the starting lba
(pblk_get_laddr), the sector count pblk_get_secs(bio) computed from the bio
size, and the segment count bio->bi_vcnt. -/
structure ReadReq where
  laddr : Nat
  nrDataSecs : Nat
  biVcnt : Nat
deriving DecidableEq, Repr

/-- Embedding of pblk_submit_read (pblk-core.c:529-587) over the L2P map m
and the mempool outcomes, returning the NVM_IO result code together with the
trace of observable actions in program order.  The first statement of the C
function compares pblk_get_secs(bio) with bio->bi_vcnt and returns
NVM_IO_ERR before touching anything; past the guard, a failed rqd
allocation errors the bio, and otherwise the sectors are classified against
the L2P map, a fully-cached-or-empty bio is ended at once, and anything else
goes to the device. -/
def pblk_submit_read (m : Nat → PblkAddr) (rqdAvail ppaListAvail : Bool)
    (bio : ReadReq) : NvmIoRes × List REffect :=
  if bio.nrDataSecs ≠ bio.biVcnt then (.err, [])
  else if !rqdAvail then (.err, [.bioIoError])
  else if 1 < bio.nrDataSecs then
    if !ppaListAvail then (.err, [.allocRqd])
    else
      let accesses :=
        (List.range bio.nrDataSecs).map fun i => REffect.mapAccess (bio.laddr + i)
      let srcs :=
        (List.range bio.nrDataSecs).map fun i =>
          pblk_read_classify (m (bio.laddr + i))
      if srcs.all fun s => match s with | .fromDev _ => false | _ => true then
        (.ok, .allocRqd :: .allocPpaList :: accesses ++ [.bioEndio])
      else
        (.ok, .allocRqd :: .allocPpaList :: accesses ++ [.devSubmit])
  else
    let src := pblk_read_classify (m bio.laddr)
    match src with
    | .fromDev _ => (.ok, [.allocRqd, .mapAccess bio.laddr, .devSubmit])
    | _ => (.ok, [.allocRqd, .mapAccess bio.laddr, .bioEndio])

/-- Concrete L2P state in which lbas 2, 3 and 4 are mapped: 2 to a device
address owned by block 0, 3 to a cacheline, and 4 to another sector of
block 0. -/
def l2pSt0 : L2PState :=
  ⟨fun l =>
      if l = 2 then ⟨PAddr.dev 10, false, some 0⟩
      else if l = 3 then ⟨PAddr.cache 5, false, none⟩
      else if l = 4 then ⟨PAddr.dev 11, false, some 0⟩
      else ⟨PAddr.empty, false, none⟩,
    fun _ => ⟨0, fun _ => false⟩⟩

/-- Claim C2, counterexample.  The claim says a writer admitting nr_secs
sectors blocks whenever write_inflight + nr_secs > 400000 and that the
counter never passes the cap.  At write_inflight = 399999 with nr_secs = 2
the guard of atomic_inc_below compares 399999 against the cap before adding
the increment, so the writer is admitted without blocking and the counter
lands at 400001, past the cap. -/
theorem c2_counterexample :
    atomic_inc_below 399999 inflightCap 2 = (true, 400001) ∧
    pblk_may_submit_write_step 399999 2 = some 400001 ∧
    inflightCap < 400001 := by
  decide

/-- Claim C2, amended: a writer blocks exactly when write_inflight has
already reached 400000, irrespective of nr_secs; a successful admission
starts from a counter strictly below the cap and advances it by nr_secs, so
write_inflight never exceeds 400000 + nr_secs − 1. -/
theorem c2_inflight_amended (v inc : Nat) :
    (pblk_may_submit_write_step v inc = none ↔ inflightCap ≤ v) ∧
    ∀ v2, pblk_may_submit_write_step v inc = some v2 →
      v < inflightCap ∧ v2 = v + inc ∧ v2 < inflightCap + inc := by
  by_cases h : inflightCap ≤ v
  · simp [pblk_may_submit_write_step, atomic_inc_below, h]
  · simp only [pblk_may_submit_write_step, atomic_inc_below, ge_iff_le,
      if_neg h]
    refine ⟨by simp [h], fun v2 hv2 => ?_⟩
    simp only [Option.some.injEq] at hv2
    omega

/-- Witness for c2_inflight_amended at write_inflight = 0, nr_secs = 3. -/
theorem c2_witness : 0 < inflightCap ∧ 3 = 0 + 3 ∧ 3 < inflightCap + 3 :=
  (c2_inflight_amended 0 3).2 3 (by decide)

/-- Climb loop of the flush case in closed form: starting from a multiple of
min and given enough fuel, the loop ends at the larger of its start value
and the largest multiple of min not exceeding min(secs_avail, max). -/
theorem secsToSyncLoopF_eq (secsAvail mx mn : Nat) (hmn : 0 < mn) :
    ∀ fuel s, mn ∣ s → min secsAvail mx < s + fuel * mn →
      secsToSyncLoopF fuel secsAvail mx mn s =
        max s (mn * (min secsAvail mx / mn)) := by
  intro fuel
  induction fuel with
  | zero =>
    intro s _ hlt
    have h1 : mn * (min secsAvail mx / mn) ≤ min secsAvail mx :=
      Nat.mul_div_le _ _
    simp only [secsToSyncLoopF]
    omega
  | succ fuel ih =>
    intro s hdvd hlt
    simp only [secsToSyncLoopF]
    by_cases hg : s + mn ≤ secsAvail ∧ s + mn ≤ mx
    · rw [if_pos hg]
      have hle : s + mn ≤ min secsAvail mx := le_min hg.1 hg.2
      have hdvd2 : mn ∣ (s + mn) := Nat.dvd_add hdvd dvd_rfl
      have hmul : (fuel + 1) * mn = fuel * mn + mn := by ring
      have hrec := ih (s + mn) hdvd2 (by omega)
      rw [hrec]
      obtain ⟨k, hk⟩ := hdvd2
      have hcomm : k * mn = mn * k := Nat.mul_comm k mn
      have hk2 : k ≤ min secsAvail mx / mn := by
        apply (Nat.le_div_iff_mul_le hmn).mpr
        omega
      have h2 : s + mn ≤ mn * (min secsAvail mx / mn) := by
        have h3 := Nat.mul_le_mul (le_refl mn) hk2
        omega
      omega
    · rw [if_neg hg]
      have hA : min secsAvail mx < s + mn := by omega
      obtain ⟨p, hp⟩ := hdvd
      have hq : mn * (min secsAvail mx / mn) ≤ min secsAvail mx :=
        Nat.mul_div_le _ _
      have h1 : mn * (min secsAvail mx / mn) < mn * (p + 1) := by
        have hx : mn * (p + 1) = mn * p + mn := by ring
        omega
      have h2 : min secsAvail mx / mn ≤ p :=
        Nat.lt_succ_iff.mp (Nat.lt_of_mul_lt_mul_left h1)
      have h3 : mn * (min secsAvail mx / mn) ≤ mn * p :=
        Nat.mul_le_mul (le_refl mn) h2
      omega

/-- Claim C4, counterexample.  With max = 16, min = 4, secs_avail = 5,
secs_to_flush = 9 the function enters the flush case and starts its climb at
min·⌊secs_to_flush/min⌋ = 8, which already exceeds secs_avail, and returns
8 — not the largest multiple of min that is ≤ secs_avail, which is 4. -/
theorem c4_counterexample :
    pblk_calc_secs_to_sync 16 4 5 9 = 8 ∧ 4 * (5 / 4) = 4 ∧ ¬(8 ≤ 5) := by
  decide

/-- Claim C4, amended: as the claim states except in the flush case, where
the result is the larger of min·⌊secs_to_flush/min⌋ and the largest multiple
of min that is ≤ secs_avail (the two agree, giving the claim's value,
whenever secs_to_flush ≤ secs_avail, which holds for the counts the writer
passes in). -/
theorem c4_calc_secs_amended (mx mn secsAvail secsToFlush : Nat)
    (hmn : 0 < mn) :
    pblk_calc_secs_to_sync mx mn secsAvail secsToFlush =
      if secsAvail ≥ mx ∨ secsToFlush ≥ mx then mx
      else if secsAvail ≥ mn then
        if secsToFlush ≠ 0 then
          max (mn * (secsToFlush / mn)) (mn * (secsAvail / mn))
        else mn * (secsAvail / mn)
      else if secsToFlush ≠ 0 then mn else 0 := by
  unfold pblk_calc_secs_to_sync
  by_cases h1 : secsAvail ≥ mx ∨ secsToFlush ≥ mx
  · rw [if_pos h1, if_pos h1]
  · rw [if_neg h1, if_neg h1]
    by_cases h2 : secsAvail ≥ mn
    · rw [if_pos h2, if_pos h2]
      by_cases h3 : secsToFlush ≠ 0
      · rw [if_pos h3, if_pos h3]
        have hmin : min secsAvail mx = secsAvail := by omega
        have hfuel :
            min secsAvail mx <
              mn * (secsToFlush / mn) + (secsAvail + 1) * mn := by
          have hx : secsAvail + 1 ≤ (secsAvail + 1) * mn :=
            Nat.le_mul_of_pos_right (secsAvail + 1) hmn
          omega
        have := secsToSyncLoopF_eq secsAvail mx mn hmn (secsAvail + 1)
          (mn * (secsToFlush / mn)) (dvd_mul_right mn _) hfuel
        rw [this, hmin]
      · rw [if_neg h3, if_neg h3]
    · rw [if_neg h2, if_neg h2]

/-- Witness for c4_calc_secs_amended at max = 16, min = 4, secs_avail = 7,
secs_to_flush = 2: the flush case yields max(0, 4) = 4. -/
theorem c4_witness :
    pblk_calc_secs_to_sync 16 4 7 2 = max (4 * (2 / 4)) (4 * (7 / 4)) := by
  have h := c4_calc_secs_amended 16 4 7 2 (by decide)
  simpa using h

/-- Claim C6 (code_bug evaluation).  An L2P entry whose cacheline already has
the read-pin set before this read begins: pblk_lock_read duly saves the
prior value (true) into cache_read_state, but pblk_unlock_read clears the
pin to false instead of restoring the saved value, so a pin that was set
before the read does not survive the release. -/
theorem c6_unlock_read_drops_pin :
    (pblk_lock_read ⟨PAddr.cache 0, true, none⟩).2.1 = some true ∧
    pblk_unlock_read (pblk_lock_read ⟨PAddr.cache 0, true, none⟩).1 =
      ⟨PAddr.cache 0, false, none⟩ ∧
    (⟨PAddr.cache 0, true, none⟩ : PblkAddr).readCache = true := by
  decide

/-- Claim C10: when the computed sector count of a read bio differs from its
segment count, pblk_submit_read returns NVM_IO_ERR as its very first action:
the effect trace is empty, so no request object is allocated, the L2P map is
neither consulted nor modified, and the bio is neither completed nor
errored by this layer. -/
theorem c10_submit_read_guard (m : Nat → PblkAddr) (rqdAvail ppaListAvail : Bool)
    (bio : ReadReq) (h : bio.nrDataSecs ≠ bio.biVcnt) :
    pblk_submit_read m rqdAvail ppaListAvail bio = (.err, []) := by
  unfold pblk_submit_read
  rw [if_pos h]

/-- Witness for c10_submit_read_guard: a bio advertising 2 sectors but 3
segments over the concrete l2pSt0 map. -/
theorem c10_witness :
    pblk_submit_read l2pSt0.transMap true true ⟨0, 2, 3⟩ = (.err, []) :=
  c10_submit_read_guard l2pSt0.transMap true true ⟨0, 2, 3⟩ (by decide)

/-- Claim C7, counterexample.  A ring reservation that fails once and then
succeeds: pblk_buffer_write does not return NVM_IO_REQUEUE to its caller for
the failed reservation — it loops internally and completes the admission in
the second round, returning NVM_IO_DONE with the sector written to the ring
and published in the map. -/
theorem c7_counterexample :
    pblk_buffer_write_data [⟨false, false, 0⟩, ⟨false, true, 0⟩] 7 1 false =
      some (.done, [.rbWriteEntry 0 7, .mapUpdate 7 0]) ∧
    NvmIoRes.done ≠ NvmIoRes.requeue := by
  decide

/-- Claim C7, amended: when the ring reservation fails, pblk_write_to_cache
returns NVM_IO_REQUEUE having changed no ring or map state, but its caller
pblk_buffer_write retries internally (re-checking emergency-GC each round)
instead of surfacing the requeue; pblk_buffer_write hands NVM_IO_REQUEUE to
the block layer only when it observes emergency-GC mode, and then with no
state change either. -/
theorem c7_requeue_amended (sched : List WriteAttempt) (laddr nrSecs : Nat)
    (preflush : Bool) :
    (∀ pos laddr2 nrE pf,
        pblk_write_to_cache false pos laddr2 nrE pf = (.requeue, [])) ∧
    ∀ res eff,
      pblk_buffer_write_data sched laddr nrSecs preflush = some (res, eff) →
      res = .requeue → eff = [] ∧ ∃ a ∈ sched, a.emergencyGc = true := by
  refine ⟨fun pos laddr2 nrE pf => rfl, ?_⟩
  induction sched with
  | nil => intro res eff h; simp [pblk_buffer_write_data] at h
  | cons a rest ih =>
    intro res eff h hres
    by_cases hg : a.emergencyGc
    · rw [pblk_buffer_write_data, if_pos hg] at h
      cases h
      exact ⟨rfl, a, List.mem_cons_self a rest, hg⟩
    · rw [pblk_buffer_write_data, if_neg hg] at h
      by_cases hw : a.mayWrite
      · have hnr :
            ¬(pblk_write_to_cache a.mayWrite a.pos laddr nrSecs preflush).1 =
              NvmIoRes.requeue := by
          rw [hw]
          cases preflush <;> simp [pblk_write_to_cache]
        rw [if_neg hnr] at h
        injection h with h2
        have hfst :
            (pblk_write_to_cache a.mayWrite a.pos laddr nrSecs preflush).1 =
              res := by rw [h2]
        rw [hres] at hfst
        exact absurd hfst hnr
      · have hw2 : a.mayWrite = false := by simpa using hw
        have hr :
            (pblk_write_to_cache a.mayWrite a.pos laddr nrSecs preflush).1 =
              NvmIoRes.requeue := by
          simp [hw2, pblk_write_to_cache]
        rw [if_pos hr] at h
        rcases ih res eff h hres with ⟨heff, b, hb, hbg⟩
        exact ⟨heff, b, List.mem_cons_of_mem a hb, hbg⟩

/-- Witness for c7_requeue_amended: a single emergency-GC round makes
pblk_buffer_write surface NVM_IO_REQUEUE with an empty effect trace. -/
theorem c7_witness :
    ([] : List WEffect) = [] ∧
    ∃ a ∈ [(⟨true, false, 0⟩ : WriteAttempt)], a.emergencyGc = true :=
  (c7_requeue_amended [⟨true, false, 0⟩] 7 1 false).2 .requeue [] (by decide) rfl

/-- Removing the found context shortens the compl_list by exactly one. -/
theorem complFind_length (pos : Nat) :
    ∀ l c rest, complFind pos l = some (c, rest) → rest.length + 1 = l.length := by
  intro l
  induction l with
  | nil => intro c rest h; cases h
  | cons d tl ih =>
    intro c rest h
    simp only [complFind] at h
    by_cases hd : d.sentry = pos
    · rw [if_pos hd] at h
      cases h
      rfl
    · rw [if_neg hd] at h
      cases hft : complFind pos tl with
      | none => rw [hft] at h; cases h
      | some p =>
        obtain ⟨d2, l2⟩ := p
        rw [hft] at h
        injection h with h2
        have hih := ih d2 l2 hft
        have hr : d :: l2 = rest := congrArg Prod.snd h2
        subst hr
        simp only [List.length_cons]
        omega

/-- The drain loop never moves the position backwards. -/
theorem complDrain_mono :
    ∀ fuel pos l, pos ≤ (complDrain fuel pos l).1 := by
  intro fuel
  induction fuel with
  | zero => intro pos l; exact le_refl _
  | succ fuel ih =>
    intro pos l
    cases hf : complFind pos l with
    | none => simp [complDrain, hf]
    | some p =>
      obtain ⟨c, rest⟩ := p
      simp only [complDrain, hf]
      have h1 : pos ≤ pblk_end_w_bio pos c := Nat.le_add_right _ _
      exact le_trans h1 (ih _ _)

/-- The drain loop never grows the compl_list. -/
theorem complDrain_len :
    ∀ fuel pos l, (complDrain fuel pos l).2.length ≤ l.length := by
  intro fuel
  induction fuel with
  | zero => intro pos l; exact le_refl _
  | succ fuel ih =>
    intro pos l
    cases hf : complFind pos l with
    | none => simp [complDrain, hf]
    | some p =>
      obtain ⟨c, rest⟩ := p
      simp only [complDrain, hf]
      have h1 := complFind_length pos l c rest hf
      have h2 := ih (pblk_end_w_bio pos c) rest
      omega

/-- Given fuel at least the length of the compl_list, the drain loop reaches
its fixpoint: no queued context matches the final position. -/
theorem complDrain_fix :
    ∀ fuel pos l, l.length ≤ fuel →
      complFind (complDrain fuel pos l).1 (complDrain fuel pos l).2 = none := by
  intro fuel
  induction fuel with
  | zero =>
    intro pos l hl
    have : l = [] := List.length_eq_zero.mp (Nat.le_zero.mp hl)
    subst this
    rfl
  | succ fuel ih =>
    intro pos l hl
    cases hf : complFind pos l with
    | none => simp only [complDrain, hf]
    | some p =>
      obtain ⟨c, rest⟩ := p
      simp only [complDrain, hf]
      have h1 := complFind_length pos l c rest hf
      exact ih (pblk_end_w_bio pos c) rest (by omega)

/-- Claim C3: the retirement position sync never decreases under
pblk_compl_queue; a completion whose sentry is not the current sync leaves
sync unchanged and is appended to compl_list; a completion whose sentry
equals sync is retired immediately (sync advances at least past its
nr_valid entries) and the queued contexts are then drained until no context
on compl_list matches the advanced position. -/
theorem c3_compl_queue_order (st : RbSyncState) (c : ComplCtx) :
    st.sync ≤ (pblk_compl_queue st c).sync ∧
    (c.sentry ≠ st.sync →
      pblk_compl_queue st c = ⟨st.sync, st.complList ++ [c]⟩) ∧
    (c.sentry = st.sync →
      st.sync + c.nrValid ≤ (pblk_compl_queue st c).sync ∧
      complFind (pblk_compl_queue st c).sync
        (pblk_compl_queue st c).complList = none ∧
      (pblk_compl_queue st c).complList.length ≤ st.complList.length) := by
  unfold pblk_compl_queue
  by_cases h : c.sentry = st.sync
  · rw [if_pos h]
    refine ⟨?_, fun hne => absurd h hne, fun _ => ⟨?_, ?_, ?_⟩⟩
    · exact le_trans (Nat.le_add_right _ _)
        (complDrain_mono st.complList.length (pblk_end_w_bio st.sync c)
          st.complList)
    · exact complDrain_mono st.complList.length (pblk_end_w_bio st.sync c)
        st.complList
    · exact complDrain_fix st.complList.length (pblk_end_w_bio st.sync c)
        st.complList (le_refl _)
    · exact complDrain_len st.complList.length (pblk_end_w_bio st.sync c)
        st.complList
  · rw [if_neg h]
    exact ⟨le_refl _, fun _ => rfl, fun he => absurd he h⟩

/-- Witness for c3_compl_queue_order: sync at 0, one queued context at
sentry 3; the completion of the context covering [0, 3) retires it and then
drains the queued one, leaving no match behind. -/
theorem c3_witness :
    (0 : Nat) + 3 ≤ (pblk_compl_queue ⟨0, [⟨3, 2⟩]⟩ ⟨0, 3⟩).sync ∧
    complFind (pblk_compl_queue ⟨0, [⟨3, 2⟩]⟩ ⟨0, 3⟩).sync
      (pblk_compl_queue ⟨0, [⟨3, 2⟩]⟩ ⟨0, 3⟩).complList = none ∧
    (pblk_compl_queue ⟨0, [⟨3, 2⟩]⟩ ⟨0, 3⟩).complList.length ≤
      ([⟨3, 2⟩] : List ComplCtx).length :=
  (c3_compl_queue_order ⟨0, [⟨3, 2⟩]⟩ ⟨0, 3⟩).2.2 rfl

/-- Every batch the pad loop emits carries nr_valid = 0 and a batch size of
at most max_write_pgs, and the batch sizes sum to the free-sector count,
provided the fuel exceeds that count. -/
theorem padBlkLoop_spec (maxW : Nat) (hmax : 0 < maxW) :
    ∀ fuel n, n < fuel →
      (∀ r ∈ padBlkLoop fuel n maxW, r.nrValid = 0 ∧ r.nrPadded ≤ maxW) ∧
      (padBlkLoop fuel n maxW).foldr (fun r acc => r.nrPadded + acc) 0 = n := by
  intro fuel
  induction fuel with
  | zero => intro n hn; omega
  | succ fuel ih =>
    intro n hn
    by_cases hgt : n > maxW
    · simp only [padBlkLoop, if_pos hgt]
      have hpos : n - maxW > 0 := by omega
      rw [if_pos hpos]
      obtain ⟨ihm, ihs⟩ := ih (n - maxW) (by omega)
      constructor
      · intro r hr
        rcases List.mem_cons.mp hr with hr1 | hr2
        · subst hr1; exact ⟨rfl, le_refl maxW⟩
        · exact ihm r hr2
      · simp only [List.foldr_cons, ihs]
        omega
    · simp only [padBlkLoop, if_neg hgt]
      have hz : ¬n - n > 0 := by omega
      rw [if_neg hz]
      constructor
      · intro r hr
        rcases List.mem_cons.mp hr with hr1 | hr2
        · subst hr1
          exact ⟨rfl, by show n ≤ maxW; omega⟩
        · cases hr2
      · simp

/-- Claim C8, counterexample.  A block on the open list that was never
written (free count 8 = nr_blk_dsecs, a multiple of min_write_pgs = 4): the
claim prescribes pad writes for it (its free count is nonzero and aligned),
but pblk_pad_open_blks releases such a fully-free block and submits no pad
I/O; the skipped case in the code is the fully-free block, not the
zero-free one. -/
theorem c8_counterexample :
    pblk_pad_open_blk 8 4 8 0 = .skipEmpty ∧
    padOpenBlkClaim 8 4 8 0 = .padded [⟨0, 8⟩] ∧
    pblk_pad_open_blk 8 4 8 0 ≠ padOpenBlkClaim 8 4 8 0 := by
  decide

/-- Claim C8, amended: during teardown, for every open block, the corruption
check runs first — a free count that is not a multiple of min_write_pgs is
reported and the block skipped; next, a completely free block (free count
equal to nr_blk_dsecs, nothing ever written) is released with no pad I/O;
any other block gets synchronous zero-filled pad writes in batches of at
most max_write_pgs whose sizes sum to the free count, each batch carrying
nr_valid = 0 and nr_padded equal to the batch size (in particular a full
block, free count 0, receives one zero-sector pad request rather than being
skipped). -/
theorem c8_pad_amended (nrBlkDsecs minW maxW used : Nat) (hmax : 0 < maxW) :
    ((nrBlkDsecs - used) % minW ≠ 0 →
      pblk_pad_open_blk nrBlkDsecs minW maxW used = .corrupted) ∧
    ((nrBlkDsecs - used) % minW = 0 → nrBlkDsecs - used = nrBlkDsecs →
      pblk_pad_open_blk nrBlkDsecs minW maxW used = .skipEmpty) ∧
    ((nrBlkDsecs - used) % minW = 0 → nrBlkDsecs - used ≠ nrBlkDsecs →
      pblk_pad_open_blk nrBlkDsecs minW maxW used =
        .padded (pblk_pad_blk (nrBlkDsecs - used) maxW) ∧
      (∀ r ∈ pblk_pad_blk (nrBlkDsecs - used) maxW,
        r.nrValid = 0 ∧ r.nrPadded ≤ maxW) ∧
      (pblk_pad_blk (nrBlkDsecs - used) maxW).foldr
        (fun r acc => r.nrPadded + acc) 0 = nrBlkDsecs - used) := by
  have hspec := padBlkLoop_spec maxW hmax (nrBlkDsecs - used + 1)
    (nrBlkDsecs - used) (Nat.lt_succ_self _)
  refine ⟨fun h1 => ?_, fun h1 h2 => ?_, fun h1 h2 => ?_⟩
  · simp [pblk_pad_open_blk, h1]
  · have h1b : nrBlkDsecs % minW = 0 := by rw [← h2]; exact h1
    simp [pblk_pad_open_blk, h1, h2, h1b]
  · exact ⟨by simp [pblk_pad_open_blk, h1, h2], hspec.1, hspec.2⟩

/-- Witness for c8_pad_amended: nr_blk_dsecs = 8, min = 4, max = 8, 4
sectors used, so 4 free sectors are padded in one batch of 4. -/
theorem c8_witness :
    pblk_pad_open_blk 8 4 8 4 = .padded (pblk_pad_blk (8 - 4) 8) ∧
    (∀ r ∈ pblk_pad_blk (8 - 4) 8, r.nrValid = 0 ∧ r.nrPadded ≤ 8) ∧
    (pblk_pad_blk (8 - 4) 8).foldr (fun r acc => r.nrPadded + acc) 0 =
      8 - 4 :=
  (c8_pad_amended 8 4 8 4 (by decide)).2.2 (by decide) (by decide)

/-- pblk_page_invalidate only touches block state, never the map itself. -/
theorem page_invalidate_transMap (st : L2PState) (b : Nat) (gp : PblkAddr) :
    (pblk_page_invalidate st b gp).transMap = st.transMap := by
  obtain ⟨ppa, rc, rb⟩ := gp
  cases ppa <;> rfl

/-- Pointwise effect of invalidateOne on the map: the targeted lba is
cleared, everything else is untouched. -/
theorem invalidateOne_transMap (st : L2PState) (l l2 : Nat) :
    (invalidateOne st l).transMap l2 =
      if l2 = l then ⟨PAddr.empty, false, none⟩ else st.transMap l2 := by
  by_cases h : l2 = l
  · simp [invalidateOne, h]
  · simp only [invalidateOne, if_neg h]
    cases hgp : (st.transMap l).rblk with
    | none => simp [hgp, if_neg h]
    | some b => simp [hgp, if_neg h, page_invalidate_transMap]

/-- After pblk_invalidate_range, every lba of the range is unmapped. -/
theorem invalidate_range_transMap_in (st : L2PState) (slba n : Nat) :
    ∀ l, slba ≤ l → l < slba + n →
      (pblk_invalidate_range st slba n).transMap l =
        ⟨PAddr.empty, false, none⟩ := by
  induction n with
  | zero => intro l h1 h2; omega
  | succ n ih =>
    intro l h1 h2
    have hr : pblk_invalidate_range st slba (n + 1) =
        invalidateOne (pblk_invalidate_range st slba n) (slba + n) := by
      unfold pblk_invalidate_range
      rw [List.range_succ, List.foldl_append]
      rfl
    rw [hr, invalidateOne_transMap]
    by_cases hl : l = slba + n
    · rw [if_pos hl]
    · rw [if_neg hl]
      exact ih l h1 (by omega)

/-- invalidateOne leaves the block state alone on an already-cleared entry. -/
theorem invalidateOne_blocks_clean (st : L2PState) (l : Nat)
    (h : st.transMap l = ⟨PAddr.empty, false, none⟩) :
    (invalidateOne st l).blocks = st.blocks := by
  unfold invalidateOne
  rw [h]

/-- invalidateOne is the identity on an already-cleared entry. -/
theorem invalidateOne_clean (st : L2PState) (l : Nat)
    (h : st.transMap l = ⟨PAddr.empty, false, none⟩) :
    invalidateOne st l = st := by
  refine L2PState.ext ?_ (invalidateOne_blocks_clean st l h)
  funext l2
  rw [invalidateOne_transMap]
  by_cases h2 : l2 = l
  · rw [if_pos h2, h2, h]
  · rw [if_neg h2]

/-- pblk_invalidate_range is the identity on a range that is already fully
unmapped. -/
theorem invalidate_range_clean (st : L2PState) (slba : Nat) :
    ∀ n, (∀ l, slba ≤ l → l < slba + n →
        st.transMap l = ⟨PAddr.empty, false, none⟩) →
      pblk_invalidate_range st slba n = st := by
  intro n
  induction n with
  | zero => intro _; rfl
  | succ n ih =>
    intro h
    have hr : pblk_invalidate_range st slba (n + 1) =
        invalidateOne (pblk_invalidate_range st slba n) (slba + n) := by
      unfold pblk_invalidate_range
      rw [List.range_succ, List.foldl_append]
      rfl
    rw [hr, ih fun l h1 h2 => h l h1 (by omega)]
    exact invalidateOne_clean st (slba + n)
      (h _ (Nat.le_add_right _ _) (by omega))

/-- Claim C9: pblk_discard is idempotent — discarding the same lba range a
second time leaves the whole state (L2P map and the blocks' nr_invalid_secs
and invalid_bitmap) exactly as the first discard left it, and a read of any
lba in the range after the discard classifies as empty (NVM_IO_DONE with no
data). -/
theorem c9_discard_idem (st : L2PState) (slba n : Nat) :
    pblk_discard (pblk_discard st slba n) slba n = pblk_discard st slba n ∧
    ∀ l, slba ≤ l → l < slba + n →
      pblk_read_classify ((pblk_discard st slba n).transMap l) = .emptySec := by
  constructor
  · exact invalidate_range_clean (pblk_invalidate_range st slba n) slba n
      fun l h1 h2 => invalidate_range_transMap_in st slba n l h1 h2
  · intro l h1 h2
    unfold pblk_discard
    rw [invalidate_range_transMap_in st slba n l h1 h2]
    rfl

/-- Witness for c9_discard_idem: discarding lbas [2, 5) of the concrete
state l2pSt0 makes the read of lba 3 (previously cached) come back empty. -/
theorem c9_witness :
    pblk_read_classify ((pblk_discard l2pSt0 2 3).transMap 3) = .emptySec :=
  (c9_discard_idem l2pSt0 2 3).2 3 (by decide) (by decide)

/-- Unfolding of the failure walk on an index past nr_valid: the goto-out
stopping rule. -/
theorem wFailLoop_cons_stop (env : WFailEnv) (bit : Nat) (rest : List Nat)
    (prev : Option PpaG) (acc : List FailEntry) (runs : List Nat)
    (hbit : bit > env.nrValid) :
    wFailLoop env (bit :: rest) prev acc runs = (acc, runs) := by
  simp only [wFailLoop, if_pos hbit]

/-- Unfolding of the failure walk when the ring scan misses. -/
theorem wFailLoop_cons_miss (env : WFailEnv) (bit : Nat) (rest : List Nat)
    (prev : Option PpaG) (acc : List FailEntry) (runs : List Nat)
    (hbit : ¬bit > env.nrValid)
    (hre : env.ringEntry (ppaAt env bit) = none) :
    wFailLoop env (bit :: rest) prev acc runs =
      wFailLoop env rest prev acc runs := by
  simp only [wFailLoop, if_neg hbit, hre]

/-- Unfolding of the failure walk when the ring scan finds an entry. -/
theorem wFailLoop_cons_found (env : WFailEnv) (bit : Nat) (rest : List Nat)
    (prev : Option PpaG) (acc : List FailEntry) (runs : List Nat)
    (e : FailEntry) (hbit : ¬bit > env.nrValid)
    (hre : env.ringEntry (ppaAt env bit) = some e) :
    wFailLoop env (bit :: rest) prev acc runs =
      if (match prev with
          | some q => ppa_cmp_blk (ppaAt env bit) q
          | none => false) then
        wFailLoop env rest prev (acc ++ [e]) runs
      else
        wFailLoop env rest (some (ppaAt env bit)) (acc ++ [e])
          (runs ++ [e.rblk]) := by
  simp only [wFailLoop, if_neg hbit, hre]

/-- Unfolding of wFailPairs when the ring scan misses. -/
theorem wFailPairs_cons_miss (env : WFailEnv) (bit : Nat) (rest : List Nat)
    (hre : env.ringEntry (ppaAt env bit) = none) :
    wFailPairs env (bit :: rest) = wFailPairs env rest := by
  simp only [wFailPairs, hre]

/-- Unfolding of wFailPairs when the ring scan finds an entry. -/
theorem wFailPairs_cons_found (env : WFailEnv) (bit : Nat) (rest : List Nat)
    (e : FailEntry) (hre : env.ringEntry (ppaAt env bit) = some e) :
    wFailPairs env (bit :: rest) = (ppaAt env bit, e) :: wFailPairs env rest := by
  simp only [wFailPairs, hre]

/-- Closed form of the failure walk: starting from any accumulators, it
appends the entries found among the failing indices up to the first index
past nr_valid, and the pblk_run_recovery calls dictated by the block-change
rule on those found pairs. -/
theorem wFailLoop_eq (env : WFailEnv) :
    ∀ (idxs : List Nat) (prev : Option PpaG) (acc : List FailEntry)
      (runs : List Nat),
      wFailLoop env idxs prev acc runs =
        (acc ++ (wFailPairs env (stopAbove env.nrValid idxs)).map Prod.snd,
          runs ++ runsOf prev (wFailPairs env (stopAbove env.nrValid idxs))) := by
  intro idxs
  induction idxs with
  | nil =>
    intro prev acc runs
    simp [wFailLoop, stopAbove, wFailPairs, runsOf]
  | cons bit rest ih =>
    intro prev acc runs
    by_cases hbit : bit > env.nrValid
    · rw [wFailLoop_cons_stop env bit rest prev acc runs hbit,
        show stopAbove env.nrValid (bit :: rest) = [] from by
          simp only [stopAbove, if_pos hbit]]
      simp [wFailPairs, runsOf]
    · rw [show stopAbove env.nrValid (bit :: rest) =
          bit :: stopAbove env.nrValid rest from by
        simp only [stopAbove, if_neg hbit]]
      cases hre : env.ringEntry (ppaAt env bit) with
      | none =>
        rw [wFailLoop_cons_miss env bit rest prev acc runs hbit hre,
          wFailPairs_cons_miss env bit _ hre]
        exact ih prev acc runs
      | some e =>
        rw [wFailLoop_cons_found env bit rest prev acc runs e hbit hre,
          wFailPairs_cons_found env bit _ e hre]
        by_cases hcmp :
            (match prev with
              | some q => ppa_cmp_blk (ppaAt env bit) q
              | none => false) = true
        · rw [if_pos hcmp, ih prev (acc ++ [e]) runs,
            show runsOf prev ((ppaAt env bit, e) ::
                wFailPairs env (stopAbove env.nrValid rest)) =
              runsOf prev (wFailPairs env (stopAbove env.nrValid rest)) from by
              simp only [runsOf, if_pos hcmp]]
          rw [List.map_cons, List.append_assoc, List.singleton_append]
        · rw [if_neg hcmp,
            ih (some (ppaAt env bit)) (acc ++ [e]) (runs ++ [e.rblk]),
            show runsOf prev ((ppaAt env bit, e) ::
                wFailPairs env (stopAbove env.nrValid rest)) =
              e.rblk :: runsOf (some (ppaAt env bit))
                (wFailPairs env (stopAbove env.nrValid rest)) from by
              simp only [runsOf, if_neg hcmp]]
          rw [List.map_cons, List.append_assoc, List.singleton_append,
            List.append_assoc, List.singleton_append]

/-- Claim C5, counterexample.  A failed non-close-block write with a single
ppa whose one sector failed and whose ring entry is present: the claim
prescribes recovery (entry appended, run_recovery on the block, sectors
re-queued, completion queued), but pblk_end_w_fail returns immediately when
nr_ppas = 1, performing none of it. -/
theorem c5_counterexample :
    wfailEnv1.closeBlk = false ∧
    wfailEnv1.failBits.getD 0 false = true ∧
    wfailEnv1.ringEntry ⟨3, 0⟩ = some ⟨7, 0⟩ ∧
    pblk_end_w_fail wfailEnv1 = ⟨[], [], false, false, false⟩ := by
  decide

/-- Claim C5, amended: for a failed non-close-block write completion with
more than one ppa (a failed single-ppa write performs no recovery at all)
and a successful recovery-context allocation: every failing sector up to the
first failing index beyond nr_valid whose ring entry is found by ppa is
appended to the recovery list in order; pblk_run_recovery is invoked for the
first such sector and for each one whose block differs from the immediately
preceding failing sector's block (hence once per distinct failing block
when each block's failures are consecutive, but possibly several times per
block otherwise); the failed sectors are re-queued to a new request and the
request is retired through the completion queue, so those sectors surface
no error. -/
theorem c5_end_w_fail_amended (env : WFailEnv) (h1 : env.closeBlk = false)
    (h2 : 2 ≤ env.nrPpas) (h3 : env.recAlloc = true) :
    pblk_end_w_fail env =
      ⟨(failPairs env).map Prod.snd, runsOf none (failPairs env),
        true, true, false⟩ := by
  have hne : ¬env.nrPpas = 1 := by omega
  simp only [pblk_end_w_fail, h1, h3, if_neg hne, Bool.not_true,
    Bool.false_eq_true, if_false]
  rw [wFailLoop_eq env (failIdx env) none [] []]
  simp [failPairs, failConsidered, runsOf]

/-- Witness for c5_end_w_fail_amended on the concrete two-ppa environment
wfailEnv2, whose two failing sectors live in distinct blocks. -/
theorem c5_witness :
    pblk_end_w_fail wfailEnv2 =
      ⟨(failPairs wfailEnv2).map Prod.snd, runsOf none (failPairs wfailEnv2),
        true, true, false⟩ :=
  c5_end_w_fail_amended wfailEnv2 rfl (by decide) rfl

/-- Admission of a sector establishes reachability of its payload: the map
points at the freshly written ring slot. -/
theorem goodFor_admitSec (st : SysState) (lba data : Nat) :
    goodFor (admitSec st lba data) lba data := by
  left
  refine ⟨st.mem, Nat.lt_succ_self _, ?_, ?_⟩
  · simp [admitSec]
  · simp [admitSec]

/-- Unfolding of drainSec on an empty slot: nothing happens. -/
theorem drainSec_none (st : SysState) (pos ppa : Nat)
    (hre : st.ring pos = none) : drainSec st pos ppa = st := by
  unfold drainSec
  rw [hre]

/-- Unfolding of drainSec on an occupied slot. -/
theorem drainSec_eq (st : SysState) (pos ppa : Nat) (e : RbEntry)
    (hre : st.ring pos = some e) :
    drainSec st pos ppa =
      { l2p := fun l =>
          if l = e.lba ∧ st.l2p e.lba = PAddr.cache pos then PAddr.dev ppa
          else st.l2p l
        ring := fun p => if p = pos then none else st.ring p
        device := fun q => if q = ppa then some e.data else st.device q
        mem := st.mem } := by
  unfold drainSec
  rw [hre]

/-- Reachability of an admitted payload is preserved by every step that does
not supersede its lba: admissions to other lbas, drains of any ring entry
(including its own, which moves it to the device path), and discards of
other ranges. -/
theorem goodFor_step (st st2 : SysState) (op : Op) (lba data : Nat)
    (hstep : Step st op st2) (hnt : op.touches lba = false)
    (h : goodFor st lba data) : goodFor st2 lba data := by
  cases hstep with
  | admitOp lba2 data2 =>
    have hne : ¬lba = lba2 := by
      intro hx
      simp [Op.touches, hx] at hnt
    rcases h with ⟨pos, hpos, hl2p, hring⟩ | ⟨ppa, hl2p, hdev⟩
    · left
      refine ⟨pos, ?_, ?_, ?_⟩
      · show pos < st.mem + 1
        omega
      · show (if lba = lba2 then PAddr.cache st.mem else st.l2p lba) =
          PAddr.cache pos
        rw [if_neg hne, hl2p]
      · show (if pos = st.mem then some ⟨lba2, data2⟩ else st.ring pos) =
          some ⟨lba, data⟩
        rw [if_neg (Nat.ne_of_lt hpos), hring]
    · right
      refine ⟨ppa, ?_, hdev⟩
      show (if lba = lba2 then PAddr.cache st.mem else st.l2p lba) =
        PAddr.dev ppa
      rw [if_neg hne, hl2p]
  | drain pos2 ppa2 hppa =>
    cases hre : st.ring pos2 with
    | none => rwa [drainSec_none st pos2 ppa2 hre]
    | some e =>
      rw [drainSec_eq st pos2 ppa2 e hre]
      rcases h with ⟨pos, hpos, hl2p, hring⟩ | ⟨ppa, hl2p, hdev⟩
      · by_cases hp : pos2 = pos
        · rw [hp, hring] at hre
          injection hre with he
          right
          refine ⟨ppa2, ?_, ?_⟩
          · show (if lba = e.lba ∧ st.l2p e.lba = PAddr.cache pos2 then
                PAddr.dev ppa2 else st.l2p lba) = PAddr.dev ppa2
            have hcond : lba = e.lba ∧ st.l2p e.lba = PAddr.cache pos2 := by
              rw [← he, hp]
              exact ⟨rfl, hl2p⟩
            rw [if_pos hcond]
          · show (if ppa2 = ppa2 then some e.data else st.device ppa2) =
              some data
            rw [if_pos rfl, ← he]
        · left
          refine ⟨pos, hpos, ?_, ?_⟩
          · show (if lba = e.lba ∧ st.l2p e.lba = PAddr.cache pos2 then
                PAddr.dev ppa2 else st.l2p lba) = PAddr.cache pos
            have hcond : ¬(lba = e.lba ∧ st.l2p e.lba = PAddr.cache pos2) := by
              rintro ⟨heq, hcc⟩
              rw [← heq, hl2p] at hcc
              injection hcc with hpp
              exact hp hpp.symm
            rw [if_neg hcond, hl2p]
          · show (if pos = pos2 then none else st.ring pos) =
              some ⟨lba, data⟩
            rw [if_neg fun hx => hp hx.symm, hring]
      · right
        refine ⟨ppa, ?_, ?_⟩
        · show (if lba = e.lba ∧ st.l2p e.lba = PAddr.cache pos2 then
              PAddr.dev ppa2 else st.l2p lba) = PAddr.dev ppa
          have hcond : ¬(lba = e.lba ∧ st.l2p e.lba = PAddr.cache pos2) := by
            rintro ⟨heq, hcc⟩
            rw [← heq, hl2p] at hcc
            exact PAddr.noConfusion hcc
          rw [if_neg hcond, hl2p]
        · show (if ppa = ppa2 then some e.data else st.device ppa) = some data
          have hpne : ¬ppa = ppa2 := by
            intro hx
            rw [hx, hppa] at hdev
            exact Option.noConfusion hdev
          rw [if_neg hpne, hdev]
  | discard slba n =>
    have hnr : ¬(slba ≤ lba ∧ lba < slba + n) := by
      intro hcon
      simp [Op.touches, hcon.1, hcon.2] at hnt
    rcases h with ⟨pos, hpos, hl2p, hring⟩ | ⟨ppa, hl2p, hdev⟩
    · left
      refine ⟨pos, hpos, ?_, hring⟩
      show (if slba ≤ lba ∧ lba < slba + n then PAddr.empty else st.l2p lba) =
        PAddr.cache pos
      rw [if_neg hnr, hl2p]
    · right
      refine ⟨ppa, ?_, hdev⟩
      show (if slba ≤ lba ∧ lba < slba + n then PAddr.empty else st.l2p lba) =
        PAddr.dev ppa
      rw [if_neg hnr, hl2p]

/-- Reachability is preserved along any trace of steps none of which
supersedes the lba. -/
theorem goodFor_steps (lba data : Nat) :
    ∀ {st stF : SysState} {ops : List Op}, Steps st ops stF →
      (∀ op ∈ ops, op.touches lba = false) →
      goodFor st lba data → goodFor stF lba data := by
  intro st stF ops hsteps
  induction hsteps with
  | nil st => exact fun _ h => h
  | cons hstep _ ih =>
    intro hall h
    exact ih (fun op hop => hall op (List.mem_cons_of_mem _ hop))
      (goodFor_step _ _ _ lba data hstep
        (hall _ (List.mem_cons_self _ _)) h)

/-- A reachable payload is what a read returns, whether served from the
write ring or from the device. -/
theorem goodFor_read (st : SysState) (lba data : Nat)
    (h : goodFor st lba data) : readSec st lba = some data := by
  rcases h with ⟨pos, _, hl2p, hring⟩ | ⟨ppa, hl2p, hdev⟩
  · simp [readSec, hl2p, hring]
  · simp [readSec, hl2p, hdev]

/-- Claim C1: once a write of payload data to an lba has been admitted by
the buffer-write path, any subsequent read of that lba returns the payload
until a later write or discard supersedes it — while the entry still sits in
the write ring (served via the cacheline path of pblk_read_rq) and equally
after the media writer has drained the entry and the completion re-pointed
the map at the device address (served via the device path). -/
theorem c1_no_lost_writes (st : SysState) (lba data : Nat) (ops : List Op)
    (stF : SysState) (hsteps : Steps (admitSec st lba data) ops stF)
    (hno : ∀ op ∈ ops, op.touches lba = false) :
    readSec stF lba = some data :=
  goodFor_read stF lba data
    (goodFor_steps lba data hsteps hno (goodFor_admitSec st lba data))

/-- Witness for c1_no_lost_writes: write payload 7 to lba 42 on the empty
state; the read returns 7 first via the cacheline path (no further steps)
and again via the device path after the writer drains the entry to device
address 5. -/
theorem c1_witness :
    readSec (admitSec st0 42 7) 42 = some 7 ∧
    readSec (drainSec (admitSec st0 42 7) 0 5) 42 = some 7 :=
  ⟨c1_no_lost_writes st0 42 7 [] (admitSec st0 42 7) (Steps.nil _)
      (by decide),
    c1_no_lost_writes st0 42 7 [Op.drain 0 5]
      (drainSec (admitSec st0 42 7) 0 5)
      (Steps.cons (Step.drain _ 0 5 rfl) (Steps.nil _)) (by decide)⟩

end Pblk
